/-
Verification of the snyk-target-export repository: a shallow embedding of
its core functions (target conversion, dedup-key construction, export-path
deduplication, duplicate-project resolution, orphaned-target cleanup,
pagination-link validation, and retry/backoff arithmetic) together with
theorems settling the specification claims.

Modelling conventions:
* Go strings are modelled as Lean `String` (valid UTF-8 assumed; Go's
  byte-wise lexicographic order on valid UTF-8 coincides with the
  code-point lexicographic order used by Lean's `String` order).
* Go maps used as sets (`map[string]bool`) are modelled as `List String`
  with `contains`; association maps as `List (String × String)` with
  `lookup` (keys unique in all uses here).
* Fallible remote calls are oracles (`String → Option _` / success flags),
  so the pure control flow of the source can be proved about directly.
-/
import Mathlib

namespace SnykTargetExport

/-! ### Go string helpers

`splitN2 sep s` models `strings.SplitN(s, sep, 2)` for a one-character
separator: the result is `[s]` when `sep` does not occur in `s`, and
`[before, after]` (split at the first occurrence) when it does. -/

def splitN2 (sep : Char) (s : String) : List String :=
  if s.toList.contains sep then
    [String.mk (s.toList.takeWhile (· ≠ sep)),
     String.mk ((s.toList.dropWhile (· ≠ sep)).tail)]
  else [s]

/-- Models `strings.HasPrefix s pre`. -/
def strHasPre (s pre : String) : Bool :=
  pre.toList.isPrefixOf s.toList

/-- Models `strings.HasSuffix s suf`. -/
def strHasSuf (s suf : String) : Bool :=
  suf.toList.isSuffixOf s.toList

/-! ### internal/targets.go -/

/-- `Target` from internal/targets.go; `""` is the Go zero value of an
omitted field (all fields are `omitempty` in the JSON encoding). -/
structure Target where
  Name : String := ""
  Owner : String := ""
  Branch : String := ""
  ProjectKey : String := ""
  RepoSlug : String := ""
deriving DecidableEq, Repr

/-- `ImportTarget` from internal/targets.go. -/
structure ImportTarget where
  Target : Target
  OrgID : String
  IntegrationID : String
deriving DecidableEq, Repr

/-- Key set of the `scmOrigins` map (every stored value is `true`). -/
def scmOrigins : List String :=
  ["github", "github-cloud-app", "github-enterprise", "bitbucket-cloud",
   "bitbucket-connect-app", "bitbucket-cloud-app", "azure-repos",
   "bitbucket-server"]

/-- `IsSCMOrigin` from internal/targets.go (map lookup defaults to false). -/
def IsSCMOrigin (origin : String) : Bool :=
  scmOrigins.contains origin

/-- `OriginToIntegrationKey` from internal/targets.go. -/
def OriginToIntegrationKey (origin : String) : String :=
  if origin = "bitbucket-connect-app" then "bitbucket-cloud" else origin

/-- The case list of the first `switch` arm of `ProjectToTarget`
(the "owner/repo"-style origin family). -/
def ownerRepoOrigins : List String :=
  ["github", "github-cloud-app", "github-enterprise", "bitbucket-cloud",
   "bitbucket-connect-app", "bitbucket-cloud-app", "azure-repos"]

/-- `ProjectToTarget` from internal/targets.go.  `strings.SplitN(·, ·, 2)`
is `splitN2`; indexing `[0]` is `headD` (never out of range: `splitN2`
returns a non-empty list) and the `len(parts) < 2` test is the match on
the one-element result. -/
def ProjectToTarget (name origin branch : String) : Target × Bool :=
  if ownerRepoOrigins.contains origin then
    match splitN2 '/' ((splitN2 ':' name).headD "") with
    | [owner, rest] =>
        ({ Owner := owner, Name := (splitN2 '(' rest).headD "",
           Branch := if branch ≠ "" then branch else "" }, true)
    | _ => ({}, false)
  else if origin = "bitbucket-server" then
    match splitN2 '/' ((splitN2 ':' name).headD "") with
    | [projectKey, rest] =>
        ({ ProjectKey := projectKey, RepoSlug := (splitN2 '(' rest).headD "" }, true)
    | _ => ({}, false)
  else ({}, false)

/-- The `parts` list built inside `TargetID`: the non-empty target fields
in the fixed order Name, ProjectKey, RepoSlug, Owner, Branch. -/
def targetProps (t : Target) : List String :=
  (if t.Name ≠ "" then [t.Name] else []) ++
  (if t.ProjectKey ≠ "" then [t.ProjectKey] else []) ++
  (if t.RepoSlug ≠ "" then [t.RepoSlug] else []) ++
  (if t.Owner ≠ "" then [t.Owner] else []) ++
  (if t.Branch ≠ "" then [t.Branch] else [])

/-- `TargetID` from internal/targets.go:
`fmt.Sprintf("%s:%s:%s", orgID, integrationID, strings.Join(parts, ":"))`. -/
def TargetID (orgID integrationID : String) (t : Target) : String :=
  orgID ++ ":" ++ integrationID ++ ":" ++ String.intercalate ":" (targetProps t)

/-! ### internal/api.go data: `Project`, `APITarget`

`Created` and `TargetID` are the extra `Project` fields used by the dedup
subcommand (populated from `created` / `relationships.target.data.id` in
the REST response, see the project parsing in the test helpers). -/

structure Project where
  ID : String := ""
  Name : String := ""
  Origin : String := ""
  Branch : String := ""
  TargetReference : String := ""
  Created : String := ""
  TargetID : String := ""
deriving DecidableEq, Repr

/-- `APITarget` (the remote target-container record). -/
structure APITarget where
  ID : String := ""
  DisplayName : String := ""
  IntegrationID : String := ""
  IntegrationType : String := ""
  CreatedAt : String := ""
deriving DecidableEq, Repr

/-! ### refresh.go: `projectsToImportTargets`

The per-project body of the conversion loop (SCM filter, integration-type
filter, integration lookup, branch fallback, `ProjectToTarget`), i.e.
everything up to the `seen` dedup check.  Returns `none` exactly when the
loop `continue`s without appending (the gitlab counting is kept in the
loop itself, below). -/

def convertProject (orgID : String) (integrations : List (String × String))
    (integrationType : String) (p : Project) : Option ImportTarget :=
  if ¬ IsSCMOrigin p.Origin then none
  else if integrationType ≠ "" ∧ p.Origin ≠ integrationType ∧
      OriginToIntegrationKey p.Origin ≠ integrationType then none
  else
    match integrations.lookup (OriginToIntegrationKey p.Origin) with
    | none => none
    | some integrationID =>
      if integrationID = "" then none
      else
        let branch := if p.Branch = "" then p.TargetReference else p.Branch
        match ProjectToTarget p.Name p.Origin branch with
        | (_, false) => none
        | (t, true) => some { Target := t, OrgID := orgID, IntegrationID := integrationID }

/-- The conversion loop of `projectsToImportTargets`, with the `seen` set
of already-emitted `TargetID` keys threaded through.  Returns the
emitted targets (in input order) and the gitlab-skipped count. -/
def projectsToImportTargetsGo (orgID : String) (integrations : List (String × String))
    (integrationType : String) : List String → List Project → List ImportTarget × Nat
  | _, [] => ([], 0)
  | seen, p :: ps =>
    if p.Origin = "gitlab" then
      ((projectsToImportTargetsGo orgID integrations integrationType seen ps).1,
       (projectsToImportTargetsGo orgID integrations integrationType seen ps).2 + 1)
    else
      match convertProject orgID integrations integrationType p with
      | none => projectsToImportTargetsGo orgID integrations integrationType seen ps
      | some e =>
        if seen.contains (TargetID orgID e.IntegrationID e.Target) then
          projectsToImportTargetsGo orgID integrations integrationType seen ps
        else
          (e :: (projectsToImportTargetsGo orgID integrations integrationType
              (TargetID orgID e.IntegrationID e.Target :: seen) ps).1,
           (projectsToImportTargetsGo orgID integrations integrationType
              (TargetID orgID e.IntegrationID e.Target :: seen) ps).2)

/-- `projectsToImportTargets` from refresh.go (`seen` starts empty). -/
def projectsToImportTargets (orgID : String) (projects : List Project)
    (integrations : List (String × String)) (integrationType : String) :
    List ImportTarget × Nat :=
  projectsToImportTargetsGo orgID integrations integrationType [] projects

/-- The deduplication key of an emitted entry: the same key the `seen` set
guards on (`TargetID(org.ID, integrationID, target)`). -/
def importKey (orgID : String) (e : ImportTarget) : String :=
  TargetID orgID e.IntegrationID e.Target

/-- Whether an emitted entry's deduplication key equals `k`. -/
def keyIs (orgID k : String) (e : ImportTarget) : Bool :=
  importKey orgID e == k

/-! ### dedup.go: grouping key, group sorting, phase 1 and phase 2 -/

/-- `duplicateKeySeparator` from dedup.go (`"\x00"`). -/
def duplicateKeySeparator : String := "\x00"

/-- `duplicateGroupKey` from dedup.go. -/
def duplicateGroupKey (p : Project) (considerOrigin : Bool) : String :=
  if considerOrigin ∧ p.Origin ≠ "" then
    p.Name ++ duplicateKeySeparator ++ p.Origin
  else p.Name

/-- The content of the `grouped` map of `findDuplicateGroups` at a key:
a Go map entry accumulates `append`s in input order, so it is exactly the
input filtered to that key. -/
def dupGroupProjects (projects : List Project) (considerOrigin : Bool)
    (key : String) : List Project :=
  projects.filter (fun p => duplicateGroupKey p considerOrigin == key)

/-- Lexicographic comparison of character lists. -/
def charListLt : List Char → List Char → Bool
  | [], [] => false
  | [], _ :: _ => true
  | _ :: _, [] => false
  | a :: as, b :: bs =>
    if a < b then true else if b < a then false else charListLt as bs

/-- Go's `<` on strings: byte-wise lexicographic comparison, which on
valid UTF-8 equals code-point lexicographic comparison. -/
def goStrLt (a b : String) : Bool :=
  charListLt a.toList b.toList

/-- Adjacent sortedness for the comparator of the dedup `sort.Slice`
call (`projs[i].Created < projs[j].Created`): no element's `Created` is
`<` its predecessor's. -/
def sortedByCreated : List Project → Bool
  | [] => true
  | [_] => true
  | a :: b :: rest =>
    if goStrLt b.Created a.Created then false else sortedByCreated (b :: rest)

/-- The postcondition of `sort.Slice(projs, func(i,j) { return
projs[i].Created < projs[j].Created })`: the output is a permutation of
the input that is sorted for the comparator.  `sort.Slice` guarantees
nothing beyond this — in particular it is documented as NOT stable, so
any list satisfying this relation is a possible result. -/
def goSortSliceByCreated (l out : List Project) : Prop :=
  l.Perm out ∧ sortedByCreated out = true

/-- One duplicate group as reported by `findDuplicateGroups`. -/
structure DedupGroup where
  key : String
  projects : List Project
deriving DecidableEq, Repr

/-- `dedupCollectedResult` from dedup.go. -/
structure DedupCollectedResult where
  orgID : String
  orgLabel : String
  groups : List DedupGroup
deriving DecidableEq, Repr

/-- Counters plus the trace of issued remote delete calls for one batch of
duplicate candidates (the inner loop of `reportAndDeleteDuplicates`).
`delOk org proj` is the oracle for `api.DeleteProject` succeeding. -/
def deleteDupes (delOk : String → String → Bool) (doDelete : Bool)
    (orgID : String) : List Project → Nat × Nat × List (String × String)
  | [] => (0, 0, [])
  | d :: ds =>
    let r := deleteDupes delOk doDelete orgID ds
    if doDelete then
      if delOk orgID d.ID then (r.1 + 1, r.2.1, (orgID, d.ID) :: r.2.2)
      else (r.1, r.2.1 + 1, (orgID, d.ID) :: r.2.2)
    else r

/-- The per-org group loop of `reportAndDeleteDuplicates`:
(duplicates counted, deleted, failed, delete calls issued).  The dupes of
a group are everything after the first (oldest) element. -/
def groupsDel (delOk : String → String → Bool) (doDelete : Bool)
    (orgID : String) : List DedupGroup → Nat × Nat × Nat × List (String × String)
  | [] => (0, 0, 0, [])
  | g :: gs =>
    let d := deleteDupes delOk doDelete orgID (g.projects.drop 1)
    let r := groupsDel delOk doDelete orgID gs
    ((g.projects.drop 1).length + r.1, d.1 + r.2.1, d.2.1 + r.2.2.1,
     d.2.2 ++ r.2.2.2)

/-- `reportAndDeleteDuplicates` from dedup.go: returns
(orgsAffected, totalDuplicates, totalDeleted, totalFailed, delete calls). -/
def reportAndDeleteDuplicates (delOk : String → String → Bool) (doDelete : Bool) :
    List DedupCollectedResult →
    List String × Nat × Nat × Nat × List (String × String)
  | [] => ([], 0, 0, 0, [])
  | res :: rest =>
    let g := groupsDel delOk doDelete res.orgID res.groups
    let r := reportAndDeleteDuplicates delOk doDelete rest
    (res.orgID :: r.1, g.1 + r.2.1, g.2.1 + r.2.2.1, g.2.2.1 + r.2.2.2.1,
     g.2.2.2 ++ r.2.2.2.2)

/-- The `activeTargets` set built in `cleanupEmptyTargets`: target IDs
referenced by at least one fetched project (empty IDs excluded). -/
def activeTargetIDs (ps : List Project) : List String :=
  ps.filterMap (fun p => if p.TargetID ≠ "" then some p.TargetID else none)

/-- Key set of the `targetsByName` map, in first-occurrence order (a Go
map holds exactly one entry per distinct display name; its iteration
order is unspecified, so one fixed enumeration order is chosen — no claim
here depends on group order). -/
def targetNames (ts : List APITarget) : List String :=
  (ts.map (·.DisplayName)).dedup

/-- The orphan scan of `cleanupEmptyTargets` for one org: the entry of
`targetsByName` at a name is the input filtered to that name (Go map
appends in input order); groups with fewer than two members are skipped;
in a surviving group every member whose ID is not active is acted upon. -/
def orphansForOrg (ts : List APITarget) (ps : List Project) : List APITarget :=
  let active := activeTargetIDs ps
  (targetNames ts).flatMap (fun n =>
    let g := ts.filter (fun t => t.DisplayName == n)
    if g.length < 2 then []
    else g.filter (fun t => !(active.contains t.ID)))

/-- Counter/trace accumulation over the acted-upon targets of one org:
(deleted counter, failed counter, delete calls issued).  In dry-run the
deleted counter is incremented without any call (matching the source). -/
def actOnOrphans (delOk : String → String → Bool) (doDelete : Bool)
    (orgID : String) : List APITarget → Nat × Nat × List (String × String)
  | [] => (0, 0, [])
  | t :: rest =>
    let r := actOnOrphans delOk doDelete orgID rest
    if doDelete then
      if delOk orgID t.ID then (r.1 + 1, r.2.1, (orgID, t.ID) :: r.2.2)
      else (r.1, r.2.1 + 1, (orgID, t.ID) :: r.2.2)
    else (r.1 + 1, r.2.1, r.2.2)

/-- One org's pass of `cleanupEmptyTargets` (targets and projects already
fetched): (deleted, failed, delete calls, targets acted upon). -/
def cleanupOrg (delOk : String → String → Bool) (doDelete : Bool)
    (orgID : String) (ts : List APITarget) (ps : List Project) :
    Nat × Nat × List (String × String) × List APITarget :=
  let orphans := orphansForOrg ts ps
  let r := actOnOrphans delOk doDelete orgID orphans
  (r.1, r.2.1, r.2.2, orphans)

/-- `cleanupEmptyTargets` from dedup.go over the affected orgs
(`orgsAffected` iterated in some order); `fetchT`/`fetchP` are the
re-fetch oracles (`none` = fetch error, org skipped with a warning):
returns (targetsDeleted, targetsFailed, delete calls issued). -/
def cleanupEmptyTargets (delOk : String → String → Bool)
    (fetchT : String → Option (List APITarget))
    (fetchP : String → Option (List Project)) (doDelete : Bool) :
    List String → Nat × Nat × List (String × String)
  | [] => (0, 0, [])
  | orgID :: orgs =>
    let r := cleanupEmptyTargets delOk fetchT fetchP doDelete orgs
    match fetchT orgID with
    | none => r
    | some ts =>
      match fetchP orgID with
      | none => r
      | some ps =>
        let c := cleanupOrg delOk doDelete orgID ts ps
        (c.1 + r.1, c.2.1 + r.2.1, c.2.2.1 ++ r.2.2)

/-! ### Retry / backoff (client retry logic)

Durations are in nanoseconds as `Int` (Go `time.Duration`).  The float64
arithmetic of `calculateBackoff` is modelled exactly over `ℚ`; for the
shipped `DefaultRetryConfig` (initial 1e9 ns, factor 2.0, cap 3e10 ns)
every intermediate float64 value is a dyadic number far below 2^53, so
the float computation is exact and agrees with the rational one.  The
final `time.Duration(backoff)` conversion truncates toward zero. -/

/-- `RetryConfig`; `InitialBackoff`/`MaxBackoff` are durations (ns). -/
structure RetryConfig where
  MaxRetries : Nat
  InitialBackoff : Int
  MaxBackoff : Int
  BackoffFactor : ℚ
deriving Repr

/-- `DefaultRetryConfig()`. -/
def DefaultRetryConfig : RetryConfig :=
  { MaxRetries := 5, InitialBackoff := 1000000000,
    MaxBackoff := 30000000000, BackoffFactor := 2 }

/-- `isRetryableStatus`. -/
def isRetryableStatus (code : Nat) : Bool :=
  code == 408 || code == 429 || code == 500 || code == 502 ||
  code == 503 || code == 504 || code == 530

/-- Digit run → value, for `strconv.Atoi`: `none` unless the input is a
non-empty all-digit string. -/
def digitsToNat (cs : List Char) : Option Nat :=
  if cs ≠ [] ∧ cs.all (·.isDigit) then
    some (cs.foldl (fun a c => a * 10 + (c.toNat - '0'.toNat)) 0)
  else none

/-- `strconv.Atoi`: optional sign then digits (int64 overflow, which
`Atoi` rejects, is not modelled — no claim involves 19-digit headers). -/
def goAtoi (s : String) : Option Int :=
  match s.toList with
  | '+' :: rest => (digitsToNat rest).map (fun n => (n : Int))
  | '-' :: rest => (digitsToNat rest).map (fun n => -(n : Int))
  | cs => (digitsToNat cs).map (fun n => (n : Int))

/-- `getRetryAfter`: the `Retry-After` header (absent = `none`, which also
covers a nil response) parsed as integer seconds, as a duration in ns;
`0` on absence or parse failure. -/
def getRetryAfter (retryAfterHeader : Option String) : Int :=
  match retryAfterHeader with
  | none => 0
  | some ra =>
    if ra = "" then 0
    else
      match goAtoi ra with
      | some secs => secs * 1000000000
      | none => 0

/-- The multiplication loop of `calculateBackoff`
(`for i := 0; i < attempt; i++ { backoff *= factor }`). -/
def backoffLoop (factor : ℚ) : Nat → ℚ → ℚ
  | 0, b => b
  | n + 1, b => backoffLoop factor n (b * factor)

/-- float64 → `time.Duration` conversion: truncation toward zero. -/
def f64toDuration (q : ℚ) : Int :=
  if q < 0 then -⌊-q⌋ else ⌊q⌋

/-- `calculateBackoff`. -/
def calculateBackoff (attempt : Nat) (cfg : RetryConfig) : Int :=
  let b := backoffLoop cfg.BackoffFactor attempt (cfg.InitialBackoff : ℚ)
  let b := if b > (cfg.MaxBackoff : ℚ) then (cfg.MaxBackoff : ℚ) else b
  f64toDuration b

/-- Outcome of one HTTP attempt inside `DoWithRetry`: a transport error,
or a response with a status and an optional `Retry-After` header. -/
inductive AttemptOutcome where
  | connErr : AttemptOutcome
  | resp (status : Nat) (retryAfter : Option String) : AttemptOutcome
deriving DecidableEq, Repr

/-- Final result of `DoWithRetry` (coarse): success, the fail-fast 401,
a non-retryable response returned as-is, or retry budget exhausted. -/
inductive RetryFinal where
  | ok (status : Nat) : RetryFinal
  | authFail : RetryFinal
  | passthrough (status : Nat) : RetryFinal
  | exhausted : RetryFinal
deriving DecidableEq, Repr

/-- The retry loop of `DoWithRetry` over an oracle of per-attempt
outcomes.  `fuel` is the number of loop iterations left
(`cfg.MaxRetries + 1 - attempt`); a sleep happens only when another
iteration follows (`attempt < MaxRetries`, i.e. remaining fuel ≥ 1).
Returns the final result and the sequence of sleep durations (ns). -/
def doRetryAux (cfg : RetryConfig) (out : Nat → AttemptOutcome) :
    Nat → Nat → RetryFinal × List Int
  | _, 0 => (.exhausted, [])
  | attempt, fuel + 1 =>
    match out attempt with
    | .connErr =>
      let r := doRetryAux cfg out (attempt + 1) fuel
      (r.1, if fuel = 0 then r.2 else calculateBackoff attempt cfg :: r.2)
    | .resp st ra =>
      if 200 ≤ st ∧ st < 300 then (.ok st, [])
      else if st = 401 then (.authFail, [])
      else if st = 429 then
        let retryAfter := getRetryAfter ra
        let w := if retryAfter = 0 then calculateBackoff attempt cfg else retryAfter
        let r := doRetryAux cfg out (attempt + 1) fuel
        (r.1, if fuel = 0 then r.2 else w :: r.2)
      else if isRetryableStatus st then
        let r := doRetryAux cfg out (attempt + 1) fuel
        (r.1, if fuel = 0 then r.2 else calculateBackoff attempt cfg :: r.2)
      else (.passthrough st, [])

/-- `DoWithRetry`'s control flow (attempts `0 .. cfg.MaxRetries`). -/
def doWithRetryModel (cfg : RetryConfig) (out : Nat → AttemptOutcome) :
    RetryFinal × List Int :=
  doRetryAux cfg out 0 (cfg.MaxRetries + 1)

/-! ### internal/api.go: pagination-link validation and the fetch loop

`net/url.Parse` is modelled only as far as `isAllowedNextURL` consumes it:
the scheme (the lower-cased text before `"://"`, empty when absent — on
every input Go would reject with a parse error or classify as
non-hierarchical or relative, the extracted scheme here is not `"https"`
either, so the
boolean result agrees) and the hostname (authority cut at `/`, `?` or
`#`, user-info before the last `@` removed, a trailing all-digit `:port`
removed). -/

/-- Split at the first `"://"`: `(text before, text after)`. -/
def splitSchemeAux : List Char → List Char → Option (List Char × List Char)
  | acc, ':' :: '/' :: '/' :: rest => some (acc.reverse, rest)
  | acc, c :: rest => splitSchemeAux (c :: acc) rest
  | _, [] => none

/-- ASCII lower-casing of one character (scheme characters are ASCII;
`url.Parse` lower-cases the scheme it returns). -/
def lowerASCII (c : Char) : Char :=
  if 'A' ≤ c ∧ c ≤ 'Z' then Char.ofNat (c.toNat + 32) else c

/-- The scheme `url.Parse` would report, `""` when there is none. -/
def goScheme (s : String) : String :=
  match splitSchemeAux [] s.toList with
  | some r => String.mk (r.1.map lowerASCII)
  | none => ""

/-- Strip a trailing `:port` (last colon followed by digits only). -/
def stripPort (h : List Char) : List Char :=
  let rev := h.reverse
  if rev.contains ':' ∧ (rev.takeWhile (· ≠ ':')).all (·.isDigit) then
    ((rev.dropWhile (· ≠ ':')).tail).reverse
  else h

/-- Keep the text after the last `@` (user-info removal). -/
def afterLastAt (l : List Char) : List Char :=
  let rev := l.reverse
  if rev.contains '@' then (rev.takeWhile (· ≠ '@')).reverse else l

/-- The hostname (`u.Hostname()`) of an absolute URL, `""` when the input
has no `"://"`. -/
def goHostname (s : String) : String :=
  match splitSchemeAux [] s.toList with
  | some r =>
    String.mk (stripPort (afterLastAt
      (r.2.takeWhile (fun c => c ≠ '/' ∧ c ≠ '?' ∧ c ≠ '#'))))
  | none => ""

/-- `isAllowedNextURL` from internal/api.go. -/
def isAllowedNextURL (nextURL allowedHost : String) : Bool :=
  if nextURL = "" then false
  else if strHasPre nextURL "/" then true
  else if goScheme nextURL ≠ "https" then false
  else goHostname nextURL = allowedHost ||
    strHasSuf (goHostname nextURL) ("." ++ allowedHost)

/-- One page of the projects REST response, with the attribute extraction
(name/origin/branch fallback) already applied to `data` — the pagination
claims are about the loop control flow, not the JSON decoding. -/
structure PageResp where
  status : Nat
  data : List Project
  next : Option String
deriving Repr

/-- The `links.next` handling at the bottom of the `FetchProjects` loop:
the next URL to request, or `none` when pagination ends (no link, empty
link, or a link rejected by `isAllowedNextURL`). -/
def resolveNext (baseURL apiHost : String) (next : Option String) : Option String :=
  match next with
  | none => none
  | some s =>
    if s ≠ "" ∧ isAllowedNextURL s apiHost then
      if strHasPre s "/" then some (baseURL ++ s) else some s
    else none

/-- Result of a fetch: the accumulated projects or an error return. -/
inductive FetchResult where
  | ok (projects : List Project) : FetchResult
  | error : FetchResult
deriving DecidableEq, Repr

/-- The `for nextURL != ""` loop of `FetchProjects`.  `pages` maps a URL
to its response (`none` = transport error after retries).  `fuel` bounds
the iterations (the Go loop has no bound; every claim is about finitely
many steps); `none` = fuel ran out, a modelling artifact only. -/
def fetchProjectsLoop (pages : String → Option PageResp) (baseURL apiHost : String) :
    Nat → String → List Project → Option FetchResult
  | 0, _, _ => none
  | fuel + 1, url, acc =>
    match pages url with
    | none => some .error
    | some resp =>
      if resp.status = 404 then some (.ok acc)
      else if resp.status ≠ 200 then some .error
      else
        match resolveNext baseURL apiHost resp.next with
        | none => some (.ok (acc ++ resp.data))
        | some nu => fetchProjectsLoop pages baseURL apiHost fuel nu (acc ++ resp.data)

/-! ## Helper lemmas -/

theorem charListLt_irrefl (l : List Char) : charListLt l l = false := by
  induction l with
  | nil => rfl
  | cons a as ih => simp [charListLt, ih]

theorem charListLt_neg_trans :
    ∀ (a b c : List Char), charListLt b a = false → charListLt c b = false →
      charListLt c a = false := by
  intro a
  induction a with
  | nil =>
    intro b c _ _
    cases c <;> rfl
  | cons x xs ih =>
    intro b c h1 h2
    cases b with
    | nil => simp [charListLt] at h1
    | cons y ys =>
      cases c with
      | nil => simp [charListLt] at h2
      | cons z zs =>
        simp only [charListLt] at h1 h2 ⊢
        by_cases hyx : y < x
        · simp [hyx] at h1
        · by_cases hzy : z < y
          · simp [hzy] at h2
          · by_cases hxy : x < y
            · have hzx : ¬ z < x := fun h => hzy (lt_of_lt_of_le h (le_of_not_lt hyx))
              have hxz : x < z ∨ x = z → z ≠ x := by
                intro _ hzx'
                subst hzx'
                exact hzy (lt_of_lt_of_le hxy le_rfl) |>.elim
              rcases lt_trichotomy x z with h | h | h
              · simp [hzx, h]
              · exact absurd (h ▸ hxy) hzy
              · exact absurd h hzx
            · have hxy' : x = y := le_antisymm (le_of_not_lt hyx) (le_of_not_lt hxy)
              subst hxy'
              simp only [hyx, if_false, if_neg (lt_irrefl x)] at h1
              by_cases hxz : x < z
              · have hzx : ¬ z < x := lt_asymm hxz
                simp [hzx, hxz]
              · have hzx : ¬ z < x := hzy
                have hxz' : x = z := le_antisymm (le_of_not_lt hzy) (le_of_not_lt hxz)
                subst hxz'
                simp only [lt_irrefl, if_false] at h2 ⊢
                exact ih ys zs h1 h2

theorem goStrLt_neg_trans {a b c : String} (h1 : goStrLt b a = false)
    (h2 : goStrLt c b = false) : goStrLt c a = false :=
  charListLt_neg_trans a.toList b.toList c.toList h1 h2

/-- The first element of a list sorted by the dedup comparator has a
`Created` value that is not greater than any element's. -/
theorem sortedByCreated_head_min :
    ∀ (tl : List Project) (hd : Project), sortedByCreated (hd :: tl) = true →
      ∀ p ∈ hd :: tl, goStrLt p.Created hd.Created = false := by
  intro tl
  induction tl with
  | nil =>
    intro hd _ p hp
    rw [List.mem_singleton] at hp
    subst hp
    exact charListLt_irrefl _
  | cons b rest ih =>
    intro hd h p hp
    rw [sortedByCreated] at h
    by_cases hbh : goStrLt b.Created hd.Created = true
    · simp [hbh] at h
    · have hbh' : goStrLt b.Created hd.Created = false := by
        revert hbh; cases goStrLt b.Created hd.Created <;> simp
      rw [if_neg (by simp [hbh'])] at h
      rcases List.mem_cons.mp hp with hp | hp
      · subst hp; exact charListLt_irrefl _
      · exact goStrLt_neg_trans hbh' (ih b h p hp)

/-! ## Claims -/

/-- C10: the deduplication key `TargetID` is not injective on `Target`s:
under one account and integration, the target with owner "x" and name "y"
and the target with project-key "y" and repo-slug "x" are structurally
different but share the key (both serialize their non-empty fields, in
the fixed Name, ProjectKey, RepoSlug, Owner, Branch order, to "y":"x"),
so two distinct repository coordinates collapse to one exported entry. -/
theorem c10_targetID_not_injective :
    ({ Owner := "x", Name := "y" } : Target) ≠ ({ ProjectKey := "y", RepoSlug := "x" } : Target) ∧
    TargetID "acct" "integ" { Owner := "x", Name := "y" }
      = TargetID "acct" "integ" { ProjectKey := "y", RepoSlug := "x" } :=
  ⟨by decide, by decide⟩

/-- C4: name parsing of `ProjectToTarget`.  The two concrete scenarios of
the claim hold; and in general, for the owner/repo origin family the
display name is cut at the first ":" (keeping the front), the result is
split at its first "/" into owner and repository (with a trailing
parenthetical stripped from the repository part), a base name without "/"
is rejected, and the bitbucket-server arm performs the identical split
into project-key and repo-slug. -/
theorem c4_name_parsing :
    (ProjectToTarget "acme/widgets:package.json" "github" "main"
      = ({ Owner := "acme", Name := "widgets", Branch := "main" }, true)) ∧
    (∀ branch, ProjectToTarget "TEAM/widgets-repo:pom.xml" "bitbucket-server" branch
      = ({ ProjectKey := "TEAM", RepoSlug := "widgets-repo" }, true)) ∧
    (∀ name origin branch, ownerRepoOrigins.contains origin = true ∨ origin = "bitbucket-server" →
      (((splitN2 ':' name).headD "").toList.contains '/') = false →
      ProjectToTarget name origin branch = ({}, false)) ∧
    (∀ name origin branch owner rest, ownerRepoOrigins.contains origin = true →
      splitN2 '/' ((splitN2 ':' name).headD "") = [owner, rest] →
      ProjectToTarget name origin branch
        = ({ Owner := owner, Name := (splitN2 '(' rest).headD "",
             Branch := if branch ≠ "" then branch else "" }, true)) ∧
    (∀ name branch projectKey rest,
      splitN2 '/' ((splitN2 ':' name).headD "") = [projectKey, rest] →
      ProjectToTarget name "bitbucket-server" branch
        = ({ ProjectKey := projectKey, RepoSlug := (splitN2 '(' rest).headD "" }, true)) := by
  refine ⟨by decide, fun branch => rfl, ?_, ?_, ?_⟩
  · intro name origin branch ho hsl
    have hne : ¬ ((((splitN2 ':' name).headD "").toList).contains '/' = true) := by
      intro h
      rw [hsl] at h
      exact Bool.false_ne_true h
    have hsplit : splitN2 '/' ((splitN2 ':' name).headD "") = [(splitN2 ':' name).headD ""] := by
      rw [splitN2, if_neg hne]
    rcases ho with ho | ho
    · rw [ProjectToTarget, if_pos ho, hsplit]
    · subst ho
      rw [ProjectToTarget, if_neg (by decide), if_pos rfl, hsplit]
  · intro name origin branch owner rest ho hsplit
    rw [ProjectToTarget, if_pos ho, hsplit]
  · intro name branch projectKey rest hsplit
    rw [ProjectToTarget, if_neg (by decide), if_pos rfl, hsplit]

/-- C4 witness: the general split equation applied at the first scenario's
input. -/
theorem c4_name_parsing_witness :
    ownerRepoOrigins.contains "github" = true ∧
    splitN2 '/' ((splitN2 ':' "acme/widgets:package.json").headD "") = ["acme", "widgets"] ∧
    ProjectToTarget "acme/widgets:package.json" "github" "main"
      = ({ Owner := "acme", Name := (splitN2 '(' "widgets").headD "",
           Branch := if "main" ≠ "" then "main" else "" }, true) :=
  ⟨by decide, by decide,
    c4_name_parsing.2.2.2.1 "acme/widgets:package.json" "github" "main" "acme" "widgets"
      (by decide) (by decide)⟩

/-- C5 counterexample: a bitbucket-server project accepted by conversion
(ok = true) with the non-empty branch argument "main" yields a Target
whose Branch field is empty — the bitbucket-server arm of
`ProjectToTarget` never copies the branch, refuting "for every Project
accepted by conversion whose branch argument is non-empty, the resulting
Target carries that branch value verbatim". -/
theorem c5_counterexample :
    (ProjectToTarget "TEAM/widgets-repo:pom.xml" "bitbucket-server" "main").2 = true ∧
    ("main" : String) ≠ "" ∧
    (ProjectToTarget "TEAM/widgets-repo:pom.xml" "bitbucket-server" "main").1.Branch = "" :=
  ⟨by decide, by decide, by decide⟩

/-- C5 (amended): for projects of the owner/repo origin family accepted
by conversion, a non-empty branch argument is carried into the Target
verbatim and an empty branch argument leaves the Branch field empty
(omitted); for bitbucket-server the accepted Target never carries a
branch, whatever the branch argument. -/
theorem c5_branch_handling :
    ∀ name origin branch t, ProjectToTarget name origin branch = (t, true) →
      (ownerRepoOrigins.contains origin = true →
        (branch ≠ "" → t.Branch = branch) ∧ (branch = "" → t.Branch = "")) ∧
      (origin = "bitbucket-server" → t.Branch = "") := by
  intro name origin branch t h
  constructor
  · intro ho
    rw [ProjectToTarget, if_pos ho] at h
    rcases hs : splitN2 '/' ((splitN2 ':' name).headD "") with _ | ⟨a, _ | ⟨b, _ | _⟩⟩ <;>
      rw [hs] at h <;> simp only [Prod.mk.injEq] at h
    · exact absurd h.2 (by decide)
    · exact absurd h.2 (by decide)
    · constructor
      · intro hb
        rw [← h.1]
        simp [hb]
      · intro hb
        rw [← h.1]
        simp [hb]
    · exact absurd h.2 (by decide)
  · intro ho
    subst ho
    rw [ProjectToTarget, if_neg (by decide), if_pos rfl] at h
    rcases hs : splitN2 '/' ((splitN2 ':' name).headD "") with _ | ⟨a, _ | ⟨b, _ | _⟩⟩ <;>
      rw [hs] at h <;> simp only [Prod.mk.injEq] at h
    · exact absurd h.2 (by decide)
    · exact absurd h.2 (by decide)
    · rw [← h.1]
    · exact absurd h.2 (by decide)

/-- C5 witness: the amended theorem applied to a github project with
branch "main" and to the bitbucket-server scenario. -/
theorem c5_branch_handling_witness :
    ProjectToTarget "a/b:f" "github" "main"
      = ({ Owner := "a", Name := "b", Branch := "main" }, true) ∧
    (("main" : String) ≠ "" → ({ Owner := "a", Name := "b", Branch := "main" } : Target).Branch = "main") ∧
    (("bitbucket-server" : String) = "bitbucket-server" →
      ({ ProjectKey := "TEAM", RepoSlug := "widgets-repo" } : Target).Branch = "") :=
  ⟨by decide,
   ((c5_branch_handling "a/b:f" "github" "main" _ (by decide)).1 (by decide)).1,
   (c5_branch_handling "TEAM/widgets-repo:pom.xml" "bitbucket-server" "main" _ (by decide)).2⟩

/-- C9: the backoff loop computes exactly `trunc(min(D·F^attempt, cap))`
(the truncation is the float64 → `time.Duration` conversion, exact for
the default config), and the default config yields 1s, 2s, 4s and 30s
(capped) at attempts 0, 1, 2 and 5. -/
theorem c9_backoff_formula :
    (∀ attempt cfg, calculateBackoff attempt cfg
      = f64toDuration (min ((cfg.InitialBackoff : ℚ) * cfg.BackoffFactor ^ attempt)
          (cfg.MaxBackoff : ℚ))) ∧
    calculateBackoff 0 DefaultRetryConfig = 1000000000 ∧
    calculateBackoff 1 DefaultRetryConfig = 2000000000 ∧
    calculateBackoff 2 DefaultRetryConfig = 4000000000 ∧
    calculateBackoff 5 DefaultRetryConfig = 30000000000 := by
  have hloop : ∀ (n : Nat) (f b : ℚ), backoffLoop f n b = b * f ^ n := by
    intro n
    induction n with
    | zero => intro f b; simp [backoffLoop]
    | succ m ih =>
      intro f b
      rw [backoffLoop, ih]
      ring
  have hgen : ∀ attempt cfg, calculateBackoff attempt cfg
      = f64toDuration (min ((cfg.InitialBackoff : ℚ) * cfg.BackoffFactor ^ attempt)
          (cfg.MaxBackoff : ℚ)) := by
    intro attempt cfg
    rw [calculateBackoff, hloop]
    rcases le_or_lt ((cfg.InitialBackoff : ℚ) * cfg.BackoffFactor ^ attempt) (cfg.MaxBackoff : ℚ)
      with h | h
    · rw [if_neg (not_lt.mpr h), min_eq_left h]
    · rw [if_pos h, min_eq_right h.le]
  refine ⟨hgen, ?_, ?_, ?_, ?_⟩
  · rw [hgen]
    rw [show min (((DefaultRetryConfig.InitialBackoff : ℚ)) * DefaultRetryConfig.BackoffFactor ^ 0)
        ((DefaultRetryConfig.MaxBackoff : ℚ)) = ((1000000000 : Int) : ℚ) from by
      norm_num [DefaultRetryConfig]]
    rw [f64toDuration, if_neg (by norm_num), Int.floor_intCast]
  · rw [hgen]
    rw [show min (((DefaultRetryConfig.InitialBackoff : ℚ)) * DefaultRetryConfig.BackoffFactor ^ 1)
        ((DefaultRetryConfig.MaxBackoff : ℚ)) = ((2000000000 : Int) : ℚ) from by
      norm_num [DefaultRetryConfig]]
    rw [f64toDuration, if_neg (by norm_num), Int.floor_intCast]
  · rw [hgen]
    rw [show min (((DefaultRetryConfig.InitialBackoff : ℚ)) * DefaultRetryConfig.BackoffFactor ^ 2)
        ((DefaultRetryConfig.MaxBackoff : ℚ)) = ((4000000000 : Int) : ℚ) from by
      norm_num [DefaultRetryConfig]]
    rw [f64toDuration, if_neg (by norm_num), Int.floor_intCast]
  · rw [hgen]
    rw [show min (((DefaultRetryConfig.InitialBackoff : ℚ)) * DefaultRetryConfig.BackoffFactor ^ 5)
        ((DefaultRetryConfig.MaxBackoff : ℚ)) = ((30000000000 : Int) : ℚ) from by
      norm_num [DefaultRetryConfig]]
    rw [f64toDuration, if_neg (by norm_num), Int.floor_intCast]

/-- C2 counterexample: a duplicate group of two projects ("A" then "B",
same name, identical creation timestamp, so group size 2) can be returned
by `sort.Slice` in reversed order: the reversed list satisfies the sort
postcondition (`goSortSliceByCreated`), so "when two members share an
identical creation timestamp their relative order after sorting equals
their input order" does not hold — `sort.Slice` is documented as
unstable and any sorted permutation is a possible output. -/
theorem c2_counterexample :
    ¬ (∀ out, goSortSliceByCreated
        (dupGroupProjects
          [{ ID := "A", Name := "x", Created := "2020-01-01" },
           { ID := "B", Name := "x", Created := "2020-01-01" }] false "x") out →
        out = dupGroupProjects
          [{ ID := "A", Name := "x", Created := "2020-01-01" },
           { ID := "B", Name := "x", Created := "2020-01-01" }] false "x") := by
  intro h
  have := h [{ ID := "B", Name := "x", Created := "2020-01-01" },
             { ID := "A", Name := "x", Created := "2020-01-01" }]
    ⟨by decide, by decide⟩
  exact absurd this (by decide)

/-- C2 (amended): for every duplicate group (the projects sharing a
grouping key, in input order) and every possible `sort.Slice` output for
the group, the first element of the sorted output — the survivor — has a
creation timestamp that is not greater than that of any group member.
The tie order among equal timestamps is NOT specified (`sort.Slice` is
not stable); only survivor minimality holds. -/
theorem c2_survivor_minimal :
    ∀ (projects : List Project) (considerOrigin : Bool) (key : String) out hd,
      goSortSliceByCreated (dupGroupProjects projects considerOrigin key) out →
      out.head? = some hd →
      ∀ p ∈ dupGroupProjects projects considerOrigin key,
        goStrLt p.Created hd.Created = false := by
  intro projects considerOrigin key out hd hsort hhd p hp
  rcases hsort with ⟨hperm, hsorted⟩
  have hp' : p ∈ out := hperm.mem_iff.mp hp
  cases out with
  | nil => exact absurd hhd (by simp)
  | cons a tl =>
    have ha : a = hd := by
      simpa using hhd
    subst ha
    exact sortedByCreated_head_min tl a hsorted p hp'

/-- C2 witness: the amended theorem at a concrete two-project group with
distinct timestamps, sorted output [B, A]: the survivor B (created
2020-01-01) is not later-created than either member. -/
theorem c2_survivor_minimal_witness :
    goSortSliceByCreated
      (dupGroupProjects
        [{ ID := "A", Name := "x", Created := "2020-01-02" },
         { ID := "B", Name := "x", Created := "2020-01-01" }] false "x")
      [{ ID := "B", Name := "x", Created := "2020-01-01" },
       { ID := "A", Name := "x", Created := "2020-01-02" }] ∧
    ∀ p ∈ dupGroupProjects
        [{ ID := "A", Name := "x", Created := "2020-01-02" },
         { ID := "B", Name := "x", Created := "2020-01-01" }] false "x",
      goStrLt p.Created ({ ID := "B", Name := "x", Created := "2020-01-01" } : Project).Created
        = false :=
  ⟨⟨by decide, by decide⟩,
   c2_survivor_minimal
     [{ ID := "A", Name := "x", Created := "2020-01-02" },
      { ID := "B", Name := "x", Created := "2020-01-01" }] false "x"
     [{ ID := "B", Name := "x", Created := "2020-01-01" },
      { ID := "A", Name := "x", Created := "2020-01-02" }]
     { ID := "B", Name := "x", Created := "2020-01-01" }
     ⟨by decide, by decide⟩ rfl⟩

/-- C3: pagination host safety.  (1) If a 200 page carries a "next" link
that is empty or rejected by `isAllowedNextURL`, the fetch loop stops and
returns the results gathered so far (this page included) without error.
(2) A link is allowed only if it is path-relative (starts with "/") or
its parsed scheme is exactly "https" and its hostname equals the
configured API host or is a sub-domain of it.  (3) When the link is
allowed, the loop follows exactly the resolved link (base-prefixed when
path-relative). -/
theorem c3_pagination_host_safety :
    (∀ pages (baseURL apiHost : String) fuel url acc resp ℓ,
      pages url = some resp → resp.status = 200 → resp.next = some ℓ →
      (ℓ = "" ∨ isAllowedNextURL ℓ apiHost = false) →
      fetchProjectsLoop pages baseURL apiHost (fuel + 1) url acc
        = some (.ok (acc ++ resp.data))) ∧
    (∀ (ℓ apiHost : String), isAllowedNextURL ℓ apiHost = true →
      strHasPre ℓ "/" = true ∨
        (goScheme ℓ = "https" ∧
          (goHostname ℓ = apiHost ∨ strHasSuf (goHostname ℓ) ("." ++ apiHost) = true))) ∧
    (∀ pages (baseURL apiHost : String) fuel url acc resp nu,
      pages url = some resp → resp.status = 200 →
      resolveNext baseURL apiHost resp.next = some nu →
      fetchProjectsLoop pages baseURL apiHost (fuel + 1) url acc
        = fetchProjectsLoop pages baseURL apiHost fuel nu (acc ++ resp.data)) := by
  refine ⟨?_, ?_, ?_⟩
  · intro pages baseURL apiHost fuel url acc resp ℓ hp hst hnext hrej
    have hres : resolveNext baseURL apiHost resp.next = none := by
      rw [hnext, resolveNext]
      rcases hrej with h | h
      · subst h
        simp
      · rw [if_neg]
        intro hc
        exact absurd (hc.2) (by rw [h]; exact Bool.false_ne_true)
    simp only [fetchProjectsLoop, hp, hst, hres]
    norm_num
  · intro ℓ apiHost h
    rw [isAllowedNextURL] at h
    by_cases h0 : ℓ = ""
    · rw [if_pos h0] at h
      exact absurd h Bool.false_ne_true
    · rw [if_neg h0] at h
      by_cases h1 : strHasPre ℓ "/" = true
      · exact Or.inl h1
      · rw [if_neg (by simpa using h1)] at h
        by_cases h2 : goScheme ℓ = "https"
        · refine Or.inr ⟨h2, ?_⟩
          rw [if_neg (by simp [h2])] at h
          rcases Bool.or_eq_true_iff.mp h with h3 | h3
          · exact Or.inl (by simpa using h3)
          · exact Or.inr h3
        · rw [if_pos (by simpa using h2)] at h
          exact absurd h Bool.false_ne_true
  · intro pages baseURL apiHost fuel url acc resp nu hp hst hres
    simp only [fetchProjectsLoop, hp, hst, hres]
    norm_num

/-- C3 witness: a 200 page whose "next" link points at a foreign host
(`https://evil.com/x` with API host `api.snyk.io`) ends the fetch with
the gathered results. -/
theorem c3_pagination_host_safety_witness :
    isAllowedNextURL "https://evil.com/x" "api.snyk.io" = false ∧
    fetchProjectsLoop
      (fun u => if u = "https://api.snyk.io/p" then
          some { status := 200, data := [{ ID := "p1" }], next := some "https://evil.com/x" }
        else none)
      "https://api.snyk.io" "api.snyk.io" 3 "https://api.snyk.io/p" []
      = some (.ok ([] ++
          ({ status := 200, data := [{ ID := "p1" }],
             next := some "https://evil.com/x" } : PageResp).data)) :=
  ⟨by decide,
   c3_pagination_host_safety.1
     (fun u => if u = "https://api.snyk.io/p" then
         some { status := 200, data := [{ ID := "p1" }], next := some "https://evil.com/x" }
       else none)
     "https://api.snyk.io" "api.snyk.io" 2 "https://api.snyk.io/p" [] _ "https://evil.com/x"
     (by simp) rfl rfl (Or.inr (by decide))⟩

/-- C8 counterexample: a request that keeps failing with the retryable
status 500 and a `Retry-After: 7` header (which parses as the integer 7)
waits the computed exponential backoff (1s at attempt 0), not the
server-provided 7s — the retry loop consults `Retry-After` only in its
429 branch, so for the other retryable statuses the claimed override
does not happen. -/
theorem c8_counterexample :
    isRetryableStatus 500 = true ∧
    goAtoi "7" = some 7 ∧
    (doWithRetryModel DefaultRetryConfig
      (fun _ => .resp 500 (some "7"))).2.head? = some 1000000000 ∧
    (1000000000 : Int) ≠ 7 * 1000000000 :=
  ⟨by decide, by decide, by decide, by decide⟩

/-- C8 (amended): when an attempt fails with a retryable status and
another attempt follows, the wait before that next attempt is the
server-provided `Retry-After` delay exactly when the status is 429 and
the header parses to a nonzero integer number of seconds; for every
other retryable failure (including a 429 whose header is absent,
unparseable or zero) the wait is the computed exponential backoff. -/
theorem c8_retry_after_only_429 :
    ∀ cfg out attempt fuel st ra, out attempt = AttemptOutcome.resp st ra →
      isRetryableStatus st = true →
      ((st = 429 ∧ getRetryAfter ra ≠ 0) →
        (doRetryAux cfg out attempt (fuel + 2)).2.head? = some (getRetryAfter ra)) ∧
      ((st ≠ 429 ∨ getRetryAfter ra = 0) →
        (doRetryAux cfg out attempt (fuel + 2)).2.head?
          = some (calculateBackoff attempt cfg)) := by
  intro cfg out attempt fuel st ra hout hretry
  have hcases : st = 408 ∨ st = 429 ∨ st = 500 ∨ st = 502 ∨ st = 503 ∨ st = 504 ∨ st = 530 := by
    rw [isRetryableStatus] at hretry
    simp only [Bool.or_eq_true, beq_iff_eq] at hretry
    tauto
  constructor
  · intro ⟨h429, hra⟩
    subst h429
    rw [show fuel + 2 = (fuel + 1) + 1 from rfl, doRetryAux, hout]
    dsimp only
    rw [if_neg (by norm_num), if_neg (by norm_num), if_pos rfl, if_neg hra,
      if_neg (by omega)]
    simp
  · intro h
    have hne : st ≠ 429 ∨ getRetryAfter ra = 0 := h
    rcases hcases with h | h | h | h | h | h | h <;> subst h <;>
      (rw [show fuel + 2 = (fuel + 1) + 1 from rfl, doRetryAux, hout]; dsimp only)
    · rw [if_neg (by norm_num), if_neg (by norm_num), if_neg (by norm_num),
        if_pos (by decide), if_neg (by omega)]
      simp
    · rcases hne with hne | hne
      · exact absurd rfl hne
      · rw [if_neg (by norm_num), if_neg (by norm_num), if_pos rfl, if_pos hne,
          if_neg (by omega)]
        simp
    · rw [if_neg (by norm_num), if_neg (by norm_num), if_neg (by norm_num),
        if_pos (by decide), if_neg (by omega)]
      simp
    · rw [if_neg (by norm_num), if_neg (by norm_num), if_neg (by norm_num),
        if_pos (by decide), if_neg (by omega)]
      simp
    · rw [if_neg (by norm_num), if_neg (by norm_num), if_neg (by norm_num),
        if_pos (by decide), if_neg (by omega)]
      simp
    · rw [if_neg (by norm_num), if_neg (by norm_num), if_neg (by norm_num),
        if_pos (by decide), if_neg (by omega)]
      simp
    · rw [if_neg (by norm_num), if_neg (by norm_num), if_neg (by norm_num),
        if_pos (by decide), if_neg (by omega)]
      simp

/-- C8 witness: the amended theorem at a 429 with `Retry-After: 7` —
the wait is the server-provided 7s. -/
theorem c8_retry_after_only_429_witness :
    (fun _ : Nat => AttemptOutcome.resp 429 (some "7")) 0 = AttemptOutcome.resp 429 (some "7") ∧
    isRetryableStatus 429 = true ∧
    getRetryAfter (some "7") ≠ 0 ∧
    (doRetryAux DefaultRetryConfig (fun _ => AttemptOutcome.resp 429 (some "7")) 0 2).2.head?
      = some (getRetryAfter (some "7")) :=
  ⟨rfl, by decide, by decide,
   (c8_retry_after_only_429 DefaultRetryConfig (fun _ => AttemptOutcome.resp 429 (some "7"))
     0 0 429 (some "7") rfl (by decide)).1 ⟨rfl, by decide⟩⟩

theorem deleteDupes_dry (delOk : String → String → Bool) (orgID : String) :
    ∀ ds, deleteDupes delOk false orgID ds = (0, 0, []) := by
  intro ds
  induction ds with
  | nil => rfl
  | cons d ds ih => rw [deleteDupes, ih]; rfl

theorem groupsDel_dry (delOk : String → String → Bool) (orgID : String) :
    ∀ gs, (groupsDel delOk false orgID gs).2.1 = 0 ∧
      (groupsDel delOk false orgID gs).2.2.1 = 0 ∧
      (groupsDel delOk false orgID gs).2.2.2 = [] := by
  intro gs
  induction gs with
  | nil => exact ⟨rfl, rfl, rfl⟩
  | cons g gs ih =>
    rw [groupsDel, deleteDupes_dry]
    simpa using ih

theorem actOnOrphans_dry (delOk : String → String → Bool) (orgID : String) :
    ∀ ts, (actOnOrphans delOk false orgID ts).2.2 = [] := by
  intro ts
  induction ts with
  | nil => rfl
  | cons t ts ih => rw [actOnOrphans]; simpa using ih

/-- C6: with the delete flag off (dry-run), the duplicate-project phase
issues no remote delete call and reports zero deleted and zero failed,
and the orphaned-target phase issues no remote delete call either —
remote state is untouched in both phases. -/
theorem c6_dry_run_no_deletes :
    ∀ (delOkP delOkT : String → String → Bool) (results : List DedupCollectedResult)
      (fetchT : String → Option (List APITarget)) (fetchP : String → Option (List Project))
      (orgs : List String),
      (reportAndDeleteDuplicates delOkP false results).2.2.1 = 0 ∧
      (reportAndDeleteDuplicates delOkP false results).2.2.2.1 = 0 ∧
      (reportAndDeleteDuplicates delOkP false results).2.2.2.2 = [] ∧
      (cleanupEmptyTargets delOkT fetchT fetchP false orgs).2.2 = [] := by
  intro delOkP delOkT results fetchT fetchP orgs
  refine ⟨?_, ?_, ?_, ?_⟩
  · induction results with
    | nil => rfl
    | cons res rest ih =>
      rw [reportAndDeleteDuplicates]
      have hg := groupsDel_dry delOkP res.orgID res.groups
      simp only [hg.1, ih]
  · induction results with
    | nil => rfl
    | cons res rest ih =>
      rw [reportAndDeleteDuplicates]
      have hg := groupsDel_dry delOkP res.orgID res.groups
      simp only [hg.2.1, ih]
  · induction results with
    | nil => rfl
    | cons res rest ih =>
      rw [reportAndDeleteDuplicates]
      have hg := groupsDel_dry delOkP res.orgID res.groups
      simp only [hg.2.2, ih, List.nil_append]
  · induction orgs with
    | nil => rfl
    | cons orgID orgs ih =>
      rw [cleanupEmptyTargets]
      cases fetchT orgID with
      | none => exact ih
      | some ts =>
        cases fetchP orgID with
        | none => exact ih
        | some ps =>
          simp only [cleanupOrg, actOnOrphans_dry, ih, List.nil_append]

/-- C7: in the orphan-cleanup phase a fetched target-container is acted
upon (reported in dry-run / deleted in delete mode) if and only if it
shares its display name with at least one other fetched container (its
display-name group has size ≥ 2) and its ID is referenced by no fetched
project; a singleton container is never acted upon even when
unreferenced.  In particular, of two containers named "x" where only T1
is referenced by a remaining project, exactly T2 is acted upon. -/
theorem c7_orphan_cleanup :
    (∀ (delOk : String → String → Bool) (doDelete : Bool) (orgID : String)
       (ts : List APITarget) (ps : List Project) (t : APITarget),
      t ∈ (cleanupOrg delOk doDelete orgID ts ps).2.2.2 ↔
        (t ∈ ts ∧ 2 ≤ (ts.filter (fun u => u.DisplayName == t.DisplayName)).length ∧
          (activeTargetIDs ps).contains t.ID = false)) ∧
    (cleanupOrg (fun _ _ => true) false "org-1"
      [{ ID := "T1", DisplayName := "x" }, { ID := "T2", DisplayName := "x" }]
      [{ TargetID := "T1" }]).2.2.2 = [{ ID := "T2", DisplayName := "x" }] := by
  constructor
  · intro delOk doDelete orgID ts ps t
    show t ∈ orphansForOrg ts ps ↔ _
    rw [orphansForOrg]
    simp only [List.mem_flatMap]
    constructor
    · rintro ⟨n, hn, ht⟩
      by_cases hlen : (ts.filter (fun u => u.DisplayName == n)).length < 2
      · rw [if_pos hlen] at ht
        simp at ht
      · rw [if_neg hlen] at ht
        rcases List.mem_filter.mp ht with ⟨htg, hact⟩
        rcases List.mem_filter.mp htg with ⟨hts, hname⟩
        have hname' : t.DisplayName = n := by simpa using hname
        subst hname'
        refine ⟨hts, by omega, ?_⟩
        simpa using hact
    · rintro ⟨hts, hlen, hact⟩
      refine ⟨t.DisplayName, ?_, ?_⟩
      · rw [targetNames, List.mem_dedup]
        exact List.mem_map.mpr ⟨t, hts, rfl⟩
      · rw [if_neg (by omega)]
        have hnot : t.ID ∉ activeTargetIDs ps := by simpa using hact
        refine List.mem_filter.mpr ⟨List.mem_filter.mpr ⟨hts, by simp⟩, by simp [hnot]⟩
  · decide

theorem convertProject_gitlab (orgID : String) (ints : List (String × String))
    (it : String) (p : Project) (hg : p.Origin = "gitlab") :
    convertProject orgID ints it p = none := by
  rw [convertProject, if_pos]
  rw [hg]
  decide

/-- Every entry emitted by the conversion loop has a dedup key outside
the incoming `seen` set. -/
theorem projectsToImportTargetsGo_not_seen (orgID : String)
    (ints : List (String × String)) (it : String) :
    ∀ (ps : List Project) (seen : List String) e,
      e ∈ (projectsToImportTargetsGo orgID ints it seen ps).1 →
      seen.contains (importKey orgID e) = false := by
  intro ps
  induction ps with
  | nil =>
    intro seen e he
    simp [projectsToImportTargetsGo] at he
  | cons p ps ih =>
    intro seen e he
    by_cases hg : p.Origin = "gitlab"
    · rw [projectsToImportTargetsGo, if_pos hg] at he
      exact ih seen e he
    · rw [projectsToImportTargetsGo, if_neg hg] at he
      cases hc : convertProject orgID ints it p with
      | none =>
        rw [hc] at he
        exact ih seen e he
      | some e' =>
        rw [hc] at he
        dsimp only at he
        by_cases hs : seen.contains (TargetID orgID e'.IntegrationID e'.Target) = true
        · rw [if_pos hs] at he
          exact ih seen e he
        · rw [if_neg hs] at he
          dsimp only at he
          rcases List.mem_cons.mp he with he | he
          · subst he
            simpa [importKey] using hs
          · have hthis := ih _ e he
            rw [List.contains_cons] at hthis
            exact (Bool.or_eq_false_iff.mp hthis).2

/-- The emitted entries have pairwise distinct dedup keys. -/
theorem projectsToImportTargetsGo_pairwise (orgID : String)
    (ints : List (String × String)) (it : String) :
    ∀ (ps : List Project) (seen : List String),
      (projectsToImportTargetsGo orgID ints it seen ps).1.Pairwise
        (fun a b => importKey orgID a ≠ importKey orgID b) := by
  intro ps
  induction ps with
  | nil =>
    intro seen
    simp [projectsToImportTargetsGo]
  | cons p ps ih =>
    intro seen
    by_cases hg : p.Origin = "gitlab"
    · rw [projectsToImportTargetsGo, if_pos hg]
      exact ih seen
    · rw [projectsToImportTargetsGo, if_neg hg]
      cases hc : convertProject orgID ints it p with
      | none => exact ih seen
      | some e' =>
        dsimp only
        by_cases hs : seen.contains (TargetID orgID e'.IntegrationID e'.Target) = true
        · rw [if_pos hs]
          exact ih seen
        · rw [if_neg hs]
          dsimp only
          refine List.pairwise_cons.mpr ⟨?_, ih _⟩
          intro b hb hkey
          have hnot := projectsToImportTargetsGo_not_seen orgID ints it ps _ b hb
          rw [List.contains_cons] at hnot
          have hne := (Bool.or_eq_false_iff.mp hnot).1
          rw [← hkey] at hne
          simp [importKey] at hne

/-- Filtering the emitted entries to one dedup key yields the first
successfully converted entry bearing that key (and nothing when the key
was already seen). -/
theorem projectsToImportTargetsGo_filter (orgID : String)
    (ints : List (String × String)) (it : String) (k : String) :
    ∀ (ps : List Project) (seen : List String),
      (projectsToImportTargetsGo orgID ints it seen ps).1.filter (keyIs orgID k)
        = if seen.contains k then []
          else ((ps.filterMap (convertProject orgID ints it)).filter
              (keyIs orgID k)).take 1 := by
  intro ps
  induction ps with
  | nil =>
    intro seen
    by_cases h : seen.contains k = true
    · rw [if_pos h]; rfl
    · rw [if_neg h]; rfl
  | cons p ps ih =>
    intro seen
    by_cases hg : p.Origin = "gitlab"
    · rw [projectsToImportTargetsGo, if_pos hg,
        List.filterMap_cons_none (convertProject_gitlab orgID ints it p hg)]
      exact ih seen
    · rw [projectsToImportTargetsGo, if_neg hg]
      cases hc : convertProject orgID ints it p with
      | none =>
        rw [List.filterMap_cons_none hc]
        exact ih seen
      | some e' =>
        rw [List.filterMap_cons_some hc]
        dsimp only
        by_cases hs : seen.contains (TargetID orgID e'.IntegrationID e'.Target) = true
        · rw [if_pos hs, ih seen]
          by_cases hk : seen.contains k = true
          · rw [if_pos hk, if_pos hk]
          · have hne : ¬ (keyIs orgID k e' = true) := by
              simp only [keyIs, importKey, beq_iff_eq]
              intro hek
              rw [hek] at hs
              exact absurd hs hk
            rw [if_neg hk, if_neg hk, List.filter_cons_of_neg hne]
        · rw [if_neg hs]
          dsimp only
          by_cases hk : seen.contains k = true
          · have hne : ¬ (keyIs orgID k e' = true) := by
              simp only [keyIs, importKey, beq_iff_eq]
              intro hek
              rw [hek] at hs
              exact absurd hk hs
            rw [List.filter_cons_of_neg hne, ih, List.contains_cons,
              if_pos (by rw [hk]; simp), if_pos hk]
          · by_cases hek : TargetID orgID e'.IntegrationID e'.Target = k
            · have hpe : keyIs orgID k e' = true := by
                simp [keyIs, importKey, hek]
              rw [List.filter_cons_of_pos hpe, ih, List.contains_cons,
                if_pos (by rw [← hek]; simp), List.filter_cons_of_pos hpe,
                if_neg hk, List.take_succ_cons, List.take_zero]
            · have hne : ¬ (keyIs orgID k e' = true) := by
                simp [keyIs, importKey, hek]
              rw [List.filter_cons_of_neg hne, ih, List.contains_cons,
                if_neg (by
                  intro hor
                  rcases (Bool.or_eq_true _ _).mp hor with h | h
                  · exact hek (eq_of_beq h).symm
                  · exact hk h),
                if_neg hk, List.filter_cons_of_neg hne]

/-- C1: in the export path's per-account conversion, (1) the emitted
ImportTargets have pairwise distinct deduplication keys — the key being
`TargetID` over the account ID, the entry's integration ID and its
Target (non-empty fields in the fixed name, project-key, repo-slug,
owner, branch order) — and (2) for every key, the emitted entry bearing
it is exactly the first successfully converted project with that key
(first-seen survivor). -/
theorem c1_dedup_key_unique :
    ∀ (orgID : String) (projects : List Project) (integrations : List (String × String))
      (integrationType : String),
      ((projectsToImportTargets orgID projects integrations integrationType).1.Pairwise
        (fun a b => importKey orgID a ≠ importKey orgID b)) ∧
      (∀ k, (projectsToImportTargets orgID projects integrations integrationType).1.filter
            (keyIs orgID k)
          = ((projects.filterMap (convertProject orgID integrations integrationType)).filter
              (keyIs orgID k)).take 1) := by
  intro orgID projects ints it
  constructor
  · exact projectsToImportTargetsGo_pairwise orgID ints it projects []
  · intro k
    have h := projectsToImportTargetsGo_filter orgID ints it k projects []
    rw [projectsToImportTargets]
    simpa using h

end SnykTargetExport
